import Mathlib

/-!
Verification of the streaming adapter layer of the xdelta3 binding
(src/src/lib.rs): the in-memory `encode`/`decode` wrappers, the windowed
source-block cache `SrcBuffer` and the driver loop `process_async`.

Modelling conventions:
  * Bytes are `Nat` (their values never matter to the properties below).
  * An asynchronous reader (`futures_io::AsyncRead`) is a `Reader`:
    a finite schedule of per-call outcomes (`none` = I/O error,
    `some cap` = serve at most `cap + 1` bytes) over the remaining bytes
    of the stream; an exhausted schedule serves as much as fits.
  * An asynchronous writer (`futures_io::AsyncWrite`) is a `Sink` with the
    same kind of schedule; a scheduled call accepts at least one byte, as a
    write returning `Ok(0)` would make the source loop forever.
  * A Rust function returning `Option` maps to `Option`; a `panic!` /
    failed `assert!` is the `Fault.assertFail` error of an `Except`.
  * `block_count` and `max_winsize` are hard-coded to `64` and
    `XD3_DEFAULT_SRCWINSZ` in `SrcBuffer::new`; they are parameters here so
    that statements cover the algorithm and witnesses stay computable, and
    the source's instantiation is recorded in the constants below.
  * The codec engine itself is FFI (`binding::*`), not part of the
    repository's sources; it is modelled from the spec where needed, and
    each such definition is marked `Modelled from the spec`.
-/

/-- Window byte budget used by `process_async` for the input buffer
(`1 << 23` in the source). -/
def XD3_DEFAULT_WINSIZE : Nat := 1 <<< 23

/-- Window byte budget used by `SrcBuffer::new` for the reference window
(`1 << 26` in the source). -/
def XD3_DEFAULT_SRCWINSZ : Nat := 1 <<< 26

/-- Block count hard-coded in `SrcBuffer::new`. -/
def srcBlockCount : Nat := 64

/-- Outcome of Rust code that can panic: `assertFail` models a failed
`assert!`. -/
inductive Fault
  | assertFail
deriving DecidableEq, Repr

/-- Decidable equality of `Except` results, for evaluating concrete runs. -/
instance {ε α : Type} [DecidableEq ε] [DecidableEq α] :
    DecidableEq (Except ε α) := fun a b =>
  match a, b with
  | .error e1, .error e2 =>
      if h : e1 = e2 then .isTrue (by rw [h])
      else .isFalse (fun hc => h (Except.error.inj hc))
  | .error _, .ok _ => .isFalse (fun hc => Except.noConfusion hc)
  | .ok a1, .ok a2 =>
      if h : a1 = a2 then .isTrue (by rw [h])
      else .isFalse (fun hc => h (Except.ok.inj hc))
  | .ok _, .error _ => .isFalse (fun hc => Except.noConfusion hc)

/-- Model of a sequential asynchronous byte source (`AsyncRead`): `data` is
the not-yet-consumed suffix of the stream, `sched` prescribes the outcome of
each upcoming `read` call; when `sched` is exhausted every later read serves
as many bytes as the request and the stream allow. -/
structure Reader where
  sched : List (Option Nat)
  data : List Nat
deriving DecidableEq, Repr

/-- One `read` call of at most `req` bytes: `none` is an I/O error, otherwise
the bytes served plus the advanced reader. A read never serves more than
`req` bytes. -/
def Reader.read (r : Reader) (req : Nat) : Option (List Nat × Reader) :=
  match r.sched with
  | [] =>
      let k := min req r.data.length
      some (r.data.take k, ⟨[], r.data.drop k⟩)
  | none :: _ => none
  | some cap :: rest =>
      let k := min (min (cap + 1) req) r.data.length
      some (r.data.take k, ⟨rest, r.data.drop k⟩)

/-- A well-behaved reader over the byte sequence `l`: every read serves as
much as possible, reads return 0 bytes only at end of stream. -/
def Reader.ofList (l : List Nat) : Reader := ⟨[], l⟩

/-- Overwrite `buf[start .. start + data.length)` with `data`, as a read into
the mutable slice `&mut buf[start..stop]` does (callers never write past the
end of the buffer). -/
def setRange (buf : List Nat) (start : Nat) (data : List Nat) : List Nat :=
  buf.take start ++ data ++ buf.drop (start + data.length)

/-- The `binding::xd3_source` descriptor fields used by the cache
(`src/src/lib.rs`): the cache fills `curblk`/`onblk`/`eof_known`/`max_blkno`/
`onlastblk`/`curblkno`, the engine fills `getblkno`. The `curblk` pointer is
modelled as the bytes it points at. -/
structure Xd3Source where
  blksize : Nat
  max_winsize : Nat
  curblkno : Nat
  getblkno : Nat
  curblk : List Nat
  onblk : Nat
  eof_known : Bool
  max_blkno : Nat
  onlastblk : Nat
deriving DecidableEq, Repr

/-- The all-zero `xd3_source` (`std::mem::zeroed()`). -/
def Xd3Source.zeroed : Xd3Source :=
  { blksize := 0, max_winsize := 0, curblkno := 0, getblkno := 0, curblk := [],
    onblk := 0, eof_known := false, max_blkno := 0, onlastblk := 0 }

/-- State of `struct SrcBuffer<R>` from the source: descriptor, remaining
reader, bytes consumed so far, end-of-stream knowledge, window geometry and
the single circular physical buffer. -/
structure SrcBuffer where
  src : Xd3Source
  read : Reader
  read_len : Nat
  eof_known : Bool
  block_count : Nat
  block_offset : Nat
  buf : List Nat
deriving DecidableEq, Repr

/-- Embedding of `SrcBuffer::new`: derive `blksize`, zero the descriptor,
allocate the `max_winsize` buffer, perform one read filling it, record
`read_len` and whether end of stream is already known; `none` when that first
read fails. The source pins `block_count = 64` and
`max_winsize = XD3_DEFAULT_SRCWINSZ`; they are parameters here. -/
def SrcBuffer.new (block_count max_winsize : Nat) (read : Reader) :
    Option SrcBuffer :=
  let blksize := max_winsize / block_count
  let src : Xd3Source :=
    { Xd3Source.zeroed with blksize := blksize, max_winsize := max_winsize }
  let buf : List Nat := List.replicate max_winsize 0
  match read.read buf.length with
  | none => none
  | some (chunk, read1) =>
      let read_len := chunk.length
      some { src := src, read := read1, read_len := read_len,
             eof_known := read_len != buf.length,
             block_count := block_count, block_offset := 0,
             buf := setRange buf 0 chunk }

/-- Embedding of `SrcBuffer::block_range`: the `assert!` on the window bounds
becomes the `assertFail` fault; inside the window the physical byte range of
block `idx` is computed modulo `block_count` and both ends are clamped to
`read_len`. -/
def SrcBuffer.block_range (s : SrcBuffer) (idx : Nat) :
    Except Fault (Nat × Nat) :=
  if s.block_offset ≤ idx ∧ idx < s.block_offset + s.block_count then
    let i := idx % s.block_count
    let start := s.src.blksize * i
    let stop := s.src.blksize * (i + 1)
    .ok (min start s.read_len, min stop s.read_len)
  else
    .error .assertFail

/-- Embedding of `SrcBuffer::fetch`: read into the physical slot of block
`block_offset`, then advance `block_offset` and accumulate `read_len`.
`ok none` is the Rust `None` (read error), the `Bool` of `ok (some _)` tells
whether the read came up short (end of stream). -/
def SrcBuffer.fetch (s : SrcBuffer) : Except Fault (Option (Bool × SrcBuffer)) :=
  match s.block_range s.block_offset with
  | .error f => .error f
  | .ok (start, stop) =>
      let blockLen := stop - start
      match s.read.read blockLen with
      | none => .ok none
      | some (chunk, read1) =>
          .ok (some (chunk.length != blockLen,
            { s with buf := setRange s.buf start chunk,
                     read := read1,
                     block_offset := s.block_offset + 1,
                     read_len := s.read_len + chunk.length }))

/-- Loop body of `SrcBuffer::prepare`. Each iteration of the source's `while`
advances `block_offset` by one, so `idx + 1 - block_offset` iterations always
suffice; `gas` is that bound (see `SrcBuffer.prepareAux_gas`), making the
recursion structural. `ok (none, s)` is the Rust `None` return (a failed
fetch) together with the state the `SrcBuffer` is left in. -/
def SrcBuffer.prepareAux : Nat → SrcBuffer → Nat → Except Fault (Option Unit × SrcBuffer)
  | 0, s, _ => .ok (some (), s)
  | gas + 1, s, idx =>
      if ¬ s.eof_known ∧ s.block_offset + s.block_count ≤ idx then
        match s.fetch with
        | .error f => .error f
        | .ok none => .ok (none, s)
        | .ok (some (eofHit, s1)) =>
            if eofHit then .ok (some (), { s1 with eof_known := true })
            else SrcBuffer.prepareAux gas s1 idx
      else
        .ok (some (), s)

/-- Embedding of `SrcBuffer::prepare`: run the lookahead loop until the
window covers `idx`, end of stream is known, a read comes up short (then set
`eof_known`) or a read fails. -/
def SrcBuffer.prepare (s : SrcBuffer) (idx : Nat) :
    Except Fault (Option Unit × SrcBuffer) :=
  SrcBuffer.prepareAux (idx + 1 - s.block_offset) s idx

/-- The engine writes the requested block number into `src.getblkno` before
the driver serves an `XD3_GETSRCBLK` signal. -/
def SrcBuffer.withGetblkno (s : SrcBuffer) (n : Nat) : SrcBuffer :=
  { s with src := { s.src with getblkno := n } }

/-- Embedding of `SrcBuffer::getblk`. Note that the source discards the
`Option` returned by `prepare` (`self.prepare(blkno).await;`), so a failed
reference read is ignored and only `block_range`'s assertion can stop the
call; the state `prepare` left behind is used as is. -/
def SrcBuffer.getblk (s : SrcBuffer) : Except Fault SrcBuffer :=
  let blkno := s.src.getblkno
  match s.prepare blkno with
  | .error f => .error f
  | .ok (_, s1) =>
      match s1.block_range blkno with
      | .error f => .error f
      | .ok (start, stop) =>
          let data := (s1.buf.drop start).take (stop - start)
          let src1 := { s1.src with curblkno := s1.src.getblkno,
                                    curblk := data, onblk := data.length }
          let src2 :=
            if ¬ s1.eof_known then
              { src1 with eof_known := false, max_blkno := src1.curblkno,
                          onlastblk := src1.onblk }
            else
              { src1 with eof_known := true,
                          max_blkno := s1.block_offset + s1.block_count - 1,
                          onlastblk := s1.read_len % src1.blksize }
          .ok { s1 with src := src2 }

/-- Block `i` of a reference byte sequence as the spec and the claims
describe it: the bytes of `[i * blksize, (i + 1) * blksize)` clamped to the
true length. Written from the claim text, for comparison with what the cache
serves. -/
def refBlock (data : List Nat) (blksize i : Nat) : List Nat :=
  (data.drop (blksize * i)).take blksize

/-- States of the cache reachable over the reference byte sequence `data`
from construction by any sequence of engine block requests: the engine
writes `getblkno` and the driver calls `getblk`. -/
inductive Reached (bc mw : Nat) (data : List Nat) : SrcBuffer → Prop
  | init (s : SrcBuffer) :
      SrcBuffer.new bc mw (Reader.ofList data) = some s → Reached bc mw data s
  | step (s s' : SrcBuffer) (n : Nat) : Reached bc mw data s →
      (s.withGetblkno n).getblk = .ok s' → Reached bc mw data s'

/-- Bookkeeping invariant of a cache built over the byte sequence `data`:
the reader is the unconsumed suffix, `read_len` counts consumed bytes,
`eof_known` implies the whole stream was consumed, and `read_len` never
exceeds the byte capacity of the window positions passed so far. -/
structure CacheInv (bc mw : Nat) (data : List Nat) (s : SrcBuffer) : Prop where
  sched : s.read.sched = []
  content : s.read.data = data.drop s.read_len
  bound : s.read_len ≤ data.length
  eofC : s.eof_known = true → data.length ≤ s.read_len
  bcF : s.block_count = bc
  blksF : s.src.blksize = mw / bc
  winB : s.read_len ≤ mw + s.block_offset * (mw / bc)

/-- The `xd3_rvalues` return codes of one engine step
(`xd3_encode_input` / `xd3_decode_input`). -/
inductive Rvalue
  | XD3_INPUT | XD3_OUTPUT | XD3_GETSRCBLK
  | XD3_GOTHEADER | XD3_WINSTART | XD3_WINFINISH
  | XD3_TOOFARBACK | XD3_INTERNAL | XD3_INVALID | XD3_INVALID_INPUT
  | XD3_NOSECOND | XD3_UNIMPLEMENTED
deriving DecidableEq, Repr

/-- The `xd3_stream` fields the driver loop reads or writes: `flags` is the
single `XD3_FLUSH` bit, `next_in`/`next_out` are the pointed-at bytes. -/
structure StreamSt where
  winsize : Nat
  flags : Bool
  next_in : List Nat
  avail_in : Nat
  next_out : List Nat
  avail_out : Nat
deriving DecidableEq, Repr

/-- Modelled from the spec: what one engine step fills in (the engine is the
external FFI collaborator, `binding::xd3_encode_input` and
`binding::xd3_decode_input` are not part of this repository). Per spec
section 6 a step yields one signal and updates the fields the engine owns:
the remaining `avail_in`, the produced bytes behind `next_out`/`avail_out`,
and the requested source block number `getblkno`. -/
structure EngineAct where
  ret : Rvalue
  avail_in : Nat
  out : List Nat
  getblkno : Nat
deriving DecidableEq, Repr

/-- Modelled from the spec: the engine session as a black-box deterministic
state machine with private state `σ`. `cfgOk`/`setSourceOk` are the results
of `xd3_config_stream` and `xd3_set_source`; each step sees the visible
stream fields and the source descriptor. -/
structure Engine (σ : Type) where
  cfgOk : Bool
  setSourceOk : Bool
  encode_input : σ → StreamSt → Xd3Source → σ × EngineAct
  decode_input : σ → StreamSt → Xd3Source → σ × EngineAct

/-- The `Mode` enum of the source, selecting encode or decode. -/
inductive Mode
  | Encode | Decode
deriving DecidableEq, Repr

/-- One engine invocation, dispatched on the mode exactly as the source's
`match mode` does. -/
def Engine.step {σ : Type} (E : Engine σ) (mode : Mode) (eg : σ)
    (stream : StreamSt) (src : Xd3Source) : σ × EngineAct :=
  match mode with
  | .Encode => E.encode_input eg stream src
  | .Decode => E.decode_input eg stream src

/-- Model of an asynchronous output sink (`AsyncWrite`): `none` in the
schedule is a failing write, `some cap` accepts at most `cap + 1` bytes (at
least one, as accepting zero would hang the source's write loop); an
exhausted schedule accepts everything. `flushOk` is the outcome of the final
`flush`, `written` the bytes received so far in order. -/
structure Sink where
  sched : List (Option Nat)
  flushOk : Bool
  written : List Nat
deriving DecidableEq, Repr

/-- One `write` call: the number of bytes accepted plus the advanced writer,
or `none` on error. -/
def Sink.write (w : Sink) (data : List Nat) : Option (Nat × Sink) :=
  match w.sched with
  | [] => some (data.length, { w with written := w.written ++ data })
  | none :: _ => none
  | some cap :: rest =>
      let k := min (cap + 1) data.length
      some (k, { w with sched := rest, written := w.written ++ data.take k })

/-- The final `out.flush().await.ok()` of the driver. -/
def Sink.flush (w : Sink) : Option Sink :=
  if w.flushOk then some w else none

/-- The source's write-and-advance loop
(`while !out_data.is_empty() { let n = out.write(out_data)...; out_data = &out_data[n..] }`).
Every successful write on nonempty data accepts at least one byte, so
`out_data.length` bounds the iterations; `gas` is that bound (making the
recursion structural) and `writeAll` instantiates it. -/
def writeAllAux : Nat → Sink → List Nat → Option Sink
  | gas, out, out_data =>
      if out_data.isEmpty then some out
      else
        match gas with
        | 0 => none
        | gas + 1 =>
            match out.write out_data with
            | none => none
            | some (n, out1) => writeAllAux gas out1 (out_data.drop n)

/-- Write `out_data` to the sink completely, over as many partial writes as
it takes; `none` when a write fails. -/
def writeAll (out : Sink) (out_data : List Nat) : Option Sink :=
  writeAllAux out_data.length out out_data

/-- The `XD3_OUTPUT` arm of the driver: flush the
`next_out[0 .. avail_out)` bytes to the sink, then acknowledge consumption by
resetting `avail_out` to zero (`xd3_consume_output`). -/
def handleOutput (stream : StreamSt) (out : Sink) :
    Option (StreamSt × Sink) :=
  let out_data := stream.next_out.take stream.avail_out
  match writeAll out out_data with
  | none => none
  | some out1 => some ({ stream with avail_out := 0 }, out1)

/-- Observable events of one driver run, in program order: an input read of
`n` bytes, the one-shot setting of the flush flag, an engine step returning
a signal, and the successful final flush of the sink. -/
inductive Ev
  | read (n : Nat)
  | setFlush
  | stepped (r : Rvalue)
  | flushed
deriving DecidableEq, Repr

/-- Outcome of the inner signal loop: exit to the outer cycle on `XD3_INPUT`
with the live state, a clean failure (`return None`), a panic, or exhausted
fuel. -/
inductive InnerOut (σ : Type)
  | toOuter (eg : σ) (stream : StreamSt) (sb : SrcBuffer) (out : Sink)
  | failed
  | asserted
  | noFuel

/-- Embedding of the inner (`'inner`) signal loop of `process_async`: step
the engine, apply the effects it reports, then dispatch on the signal exactly
as the source's `match ret` does. `fuel` bounds the number of engine steps
(the real engine is external, so nothing else bounds them); the event list
records this run's signals. -/
def innerLoop {σ : Type} (E : Engine σ) (mode : Mode) :
    Nat → σ → StreamSt → SrcBuffer → Sink → InnerOut σ × List Ev
  | 0, _, _, _, _ => (.noFuel, [])
  | fuel + 1, eg, stream, sb, out =>
      let p := E.step mode eg stream sb.src
      let eg1 := p.1
      let act := p.2
      let stream1 := { stream with avail_in := act.avail_in,
                                   next_out := act.out,
                                   avail_out := act.out.length }
      let sb1 := { sb with src := { sb.src with getblkno := act.getblkno } }
      match act.ret with
      | .XD3_INPUT => (.toOuter eg1 stream1 sb1 out, [.stepped .XD3_INPUT])
      | .XD3_OUTPUT =>
          match handleOutput stream1 out with
          | none => (.failed, [.stepped .XD3_OUTPUT])
          | some (stream2, out1) =>
              let r := innerLoop E mode fuel eg1 stream2 sb1 out1
              (r.1, .stepped .XD3_OUTPUT :: r.2)
      | .XD3_GETSRCBLK =>
          match sb1.getblk with
          | .error _ => (.asserted, [.stepped .XD3_GETSRCBLK])
          | .ok sb2 =>
              let r := innerLoop E mode fuel eg1 stream1 sb2 out
              (r.1, .stepped .XD3_GETSRCBLK :: r.2)
      | .XD3_GOTHEADER =>
          let r := innerLoop E mode fuel eg1 stream1 sb1 out
          (r.1, .stepped .XD3_GOTHEADER :: r.2)
      | .XD3_WINSTART =>
          let r := innerLoop E mode fuel eg1 stream1 sb1 out
          (r.1, .stepped .XD3_WINSTART :: r.2)
      | .XD3_WINFINISH =>
          let r := innerLoop E mode fuel eg1 stream1 sb1 out
          (r.1, .stepped .XD3_WINFINISH :: r.2)
      | .XD3_TOOFARBACK => (.failed, [.stepped .XD3_TOOFARBACK])
      | .XD3_INTERNAL => (.failed, [.stepped .XD3_INTERNAL])
      | .XD3_INVALID => (.failed, [.stepped .XD3_INVALID])
      | .XD3_INVALID_INPUT => (.failed, [.stepped .XD3_INVALID_INPUT])
      | .XD3_NOSECOND => (.failed, [.stepped .XD3_NOSECOND])
      | .XD3_UNIMPLEMENTED => (.failed, [.stepped .XD3_UNIMPLEMENTED])

/-- Final outcome of a streaming operation: success, clean failure
(`None`), panic, or exhausted fuel. -/
inductive OuterOut
  | ok
  | failed
  | asserted
  | noFuel
deriving DecidableEq, Repr

/-- Embedding of the outer (`'outer`) read cycle of `process_async`: while
the input is not exhausted, read up to `winsize` bytes; a zero-byte read sets
the `XD3_FLUSH` flag and marks the final cycle; hand the chunk to the engine
and run the inner loop; when the loop exits, flush the sink
(`out.flush().await.ok()`). -/
def outerLoop {σ : Type} (E : Engine σ) (mode : Mode) :
    Nat → σ → StreamSt → SrcBuffer → Reader → Sink → Bool → OuterOut × List Ev
  | fuel, eg, stream, sb, input, out, eof =>
      if eof then
        match out.flush with
        | none => (.failed, [])
        | some _ => (.ok, [.flushed])
      else
        match fuel with
        | 0 => (.noFuel, [])
        | fuel + 1 =>
            match input.read stream.winsize with
            | none => (.failed, [])
            | some (chunk, input1) =>
                let read_size := chunk.length
                let flagged := read_size == 0
                let stream1 := if flagged then { stream with flags := true } else stream
                let eof1 := if flagged then true else eof
                let flushEvs : List Ev := if flagged then [.setFlush] else []
                let stream2 := { stream1 with next_in := chunk, avail_in := read_size }
                match innerLoop E mode fuel eg stream2 sb out with
                | (.toOuter eg1 stream3 sb1 out1, t) =>
                    let r := outerLoop E mode fuel eg1 stream3 sb1 input1 out1 eof1
                    (r.1, .read read_size :: (flushEvs ++ t ++ r.2))
                | (.failed, t) => (.failed, .read read_size :: (flushEvs ++ t))
                | (.asserted, t) => (.asserted, .read read_size :: (flushEvs ++ t))
                | (.noFuel, t) => (.noFuel, .read read_size :: (flushEvs ++ t))

/-- Embedding of `process_async`: build the source cache (failing if its
initial read fails), configure the stream and bind the source (failing if the
engine rejects either), then run the outer cycle starting with `eof = false`
and a stream whose window size is `XD3_DEFAULT_WINSIZE`. `block_count` and
`max_winsize` parameterize what the source pins to `64` and
`XD3_DEFAULT_SRCWINSZ`. -/
def process_async {σ : Type} (E : Engine σ) (mode : Mode) (eg : σ) (fuel : Nat)
    (block_count max_winsize : Nat) (input src : Reader) (out : Sink) :
    OuterOut × List Ev :=
  match SrcBuffer.new block_count max_winsize src with
  | none => (.failed, [])
  | some sb =>
      if E.cfgOk then
        if E.setSourceOk then
          let stream : StreamSt :=
            { winsize := XD3_DEFAULT_WINSIZE, flags := false, next_in := [],
              avail_in := 0, next_out := [], avail_out := 0 }
          outerLoop E mode fuel eg stream sb input out false
        else (.failed, [])
      else (.failed, [])

/-- Embedding of `encode_async`: `process_async` in encode mode. -/
def encode_async {σ : Type} (E : Engine σ) (eg : σ) (fuel bc mw : Nat)
    (input src : Reader) (out : Sink) : OuterOut × List Ev :=
  process_async E .Encode eg fuel bc mw input src out

/-- Embedding of `decode_async`: `process_async` in decode mode. -/
def decode_async {σ : Type} (E : Engine σ) (eg : σ) (fuel bc mw : Nat)
    (input src : Reader) (out : Sink) : OuterOut × List Ev :=
  process_async E .Decode eg fuel bc mw input src out

/-- Modelled from the spec: `binding::xd3_encode_memory`, the engine's
one-shot in-memory encoder, is FFI and not part of this repository. The spec
treats the engine as a black box that emits an encoded representation from
which the original bytes can be reconstructed; the model takes the
representation to be the consumed input bytes themselves (the engine sees
exactly `input_len` bytes behind the input pointer) and always succeeds (the
spec does not constrain capacity handling, so `estimated_out_len` is
unused). -/
def xd3_encode_memory (input : List Nat) (input_len : Nat) (src : List Nat)
    (src_len : Nat) (estimated_out_len : Nat) : Option (List Nat) :=
  some (input.take input_len)

/-- Modelled from the spec: `binding::xd3_decode_memory` reconstructs the
original bytes from the representation `xd3_encode_memory` produced; with
the representation of the model those are the `input_len` bytes behind the
input pointer. -/
def xd3_decode_memory (input : List Nat) (input_len : Nat) (src : List Nat)
    (src_len : Nat) (estimated_out_len : Nat) : Option (List Nat) :=
  some (input.take input_len)

/-- Embedding of the in-memory `encode` wrapper: lengths go through the
`as c_uint` cast (truncation modulo `2 ^ 32`), the output capacity estimate
is `(input_len + src_len) * 2` in `c_uint` arithmetic, and the engine's
nonzero result becomes `none`. -/
def encode (input src : List Nat) : Option (List Nat) :=
  let input_len := input.length % 2 ^ 32
  let src_len := src.length % 2 ^ 32
  let estimated_out_len := (input_len + src_len) * 2 % 2 ^ 32
  match xd3_encode_memory input input_len src src_len estimated_out_len with
  | some output => some output
  | none => none

/-- Embedding of the in-memory `decode` wrapper, the same shape as `encode`
over `xd3_decode_memory`. -/
def decode (input src : List Nat) : Option (List Nat) :=
  let input_len := input.length % 2 ^ 32
  let src_len := src.length % 2 ^ 32
  let estimated_out_len := (input_len + src_len) * 2 % 2 ^ 32
  match xd3_decode_memory input input_len src src_len estimated_out_len with
  | some output => some output
  | none => none

/-- Engine instance for concrete runs: every step consumes the whole input
chunk and signals `XD3_INPUT`. -/
def inputEngine : Engine Unit :=
  { cfgOk := true, setSourceOk := true,
    encode_input := fun _ _ _ =>
      ((), { ret := .XD3_INPUT, avail_in := 0, out := [], getblkno := 0 }),
    decode_input := fun _ _ _ =>
      ((), { ret := .XD3_INPUT, avail_in := 0, out := [], getblkno := 0 }) }

/-- Engine instance for concrete runs: every step requests source block `n`
(`XD3_GETSRCBLK`). -/
def reqBlockEngine (n : Nat) : Engine Unit :=
  { cfgOk := true, setSourceOk := true,
    encode_input := fun _ stream _ =>
      ((), { ret := .XD3_GETSRCBLK, avail_in := stream.avail_in, out := [],
             getblkno := n }),
    decode_input := fun _ stream _ =>
      ((), { ret := .XD3_GETSRCBLK, avail_in := stream.avail_in, out := [],
             getblkno := n }) }

/-- Concrete cache state for witnesses: the state `SrcBuffer.new 2 4` builds
over the three-byte reference `[1, 2, 3]` (end of stream already known). -/
def sbuf1 : SrcBuffer :=
  { src := { blksize := 2, max_winsize := 4, curblkno := 0, getblkno := 0,
             curblk := [], onblk := 0, eof_known := false, max_blkno := 0,
             onlastblk := 0 },
    read := ⟨[], []⟩, read_len := 3, eof_known := true,
    block_count := 2, block_offset := 0, buf := [1, 2, 3, 0] }

/-- A read never serves more bytes than requested. -/
theorem Reader.read_len_le {r : Reader} {req : Nat} {chunk : List Nat}
    {r' : Reader} (h : r.read req = some (chunk, r')) : chunk.length ≤ req := by
  rcases r with ⟨sched, data⟩
  rcases sched with _ | ⟨_ | cap, rest⟩ <;>
    simp [Reader.read] at h <;>
    rcases h with ⟨h1, -⟩ <;> subst h1 <;>
    simp [List.length_take] <;> omega

/-- What a successful `fetch` does to the bookkeeping fields: the window
advances by one, end-of-stream knowledge and the descriptor are untouched,
`read_len` grows by the bytes read. -/
theorem SrcBuffer.fetch_frame {s : SrcBuffer} {b : Bool} {s' : SrcBuffer}
    (h : s.fetch = .ok (some (b, s'))) :
    s'.block_offset = s.block_offset + 1 ∧ s'.eof_known = s.eof_known ∧
    s'.src = s.src ∧ s'.block_count = s.block_count ∧
    s.read_len ≤ s'.read_len := by
  simp only [SrcBuffer.fetch] at h
  split at h
  · simp at h
  · split at h
    · simp at h
    · simp only [Except.ok.injEq, Option.some.injEq, Prod.mk.injEq] at h
      obtain ⟨-, hs⟩ := h
      subst hs
      simp

/-- The gas bound of `prepareAux` is exact: any two gas values at least
`idx + 1 - block_offset` give the same result, so `prepare` computes the
source's unbounded `while` loop. -/
theorem SrcBuffer.prepareAux_gas :
    ∀ (gas1 gas2 : Nat) (s : SrcBuffer) (idx : Nat),
      idx + 1 - s.block_offset ≤ gas1 → idx + 1 - s.block_offset ≤ gas2 →
      SrcBuffer.prepareAux gas1 s idx = SrcBuffer.prepareAux gas2 s idx := by
  intro gas1
  induction gas1 with
  | zero =>
      intro gas2 s idx h1 h2
      cases gas2 with
      | zero => rfl
      | succ g2 =>
          simp only [SrcBuffer.prepareAux]
          rw [if_neg]
          rintro ⟨-, hle⟩
          omega
  | succ g1 ih =>
      intro gas2 s idx h1 h2
      cases gas2 with
      | zero =>
          simp only [SrcBuffer.prepareAux]
          rw [if_neg]
          rintro ⟨-, hle⟩
          omega
      | succ g2 =>
          simp only [SrcBuffer.prepareAux]
          by_cases hg : ¬ s.eof_known ∧ s.block_offset + s.block_count ≤ idx
          · rw [if_pos hg, if_pos hg]
            cases hf : s.fetch with
            | error f => rfl
            | ok v =>
                cases v with
                | none => rfl
                | some p =>
                    obtain ⟨eofHit, s1⟩ := p
                    cases eofHit with
                    | true => rfl
                    | false =>
                        obtain ⟨hoff, -⟩ := SrcBuffer.fetch_frame hf
                        exact ih g2 s1 idx (by omega) (by omega)
          · rw [if_neg hg, if_neg hg]

/-- With the modelled engine, `encode` always succeeds and hands back the
`input_len = input.length as c_uint` bytes the engine was shown. -/
theorem encode_eq (input src : List Nat) :
    encode input src = some (input.take (input.length % 2 ^ 32)) := rfl

/-- With the modelled engine, `decode` always succeeds and reconstructs the
`input_len = input.length as c_uint` bytes the engine was shown. -/
theorem decode_eq (input src : List Nat) :
    decode input src = some (input.take (input.length % 2 ^ 32)) := rfl

/-- Claim C1 counterexample: the round-trip fails as stated, at an input of
`2 ^ 32` bytes, because the in-memory wrappers truncate lengths with
`as c_uint`; the engine is handed an input length of zero and the decoded
result is empty. -/
theorem c1_roundtrip_counterexample :
    (encode (List.replicate (2 ^ 32) 0) []).bind (fun e => decode e []) ≠
      some (List.replicate (2 ^ 32) 0) := by
  intro h
  rw [encode_eq, List.length_replicate, Nat.mod_self, List.take_zero,
    Option.some_bind, decode_eq] at h
  have h2 := congrArg (fun o => (Option.map List.length o).getD 0) h
  simp only [Option.map_some', Option.getD_some, List.length_take,
    List.length_nil, List.length_replicate] at h2
  have h3 : (0 : Nat) < 2 ^ 32 := Nat.pos_pow_of_pos 32 (by decide)
  omega

/-- Claim C1 amended: for inputs whose length fits the engine's `c_uint`
length parameter (below `2 ^ 32`), decoding the result of encoding `A`
against `B`, with `B` again as the reference, returns exactly `A`. -/
theorem c1_roundtrip_u32 (A B : List Nat) (h : A.length < 2 ^ 32) :
    (encode A B).bind (fun e => decode e B) = some A := by
  rw [encode_eq, Nat.mod_eq_of_lt h, List.take_length, Option.some_bind,
    decode_eq, Nat.mod_eq_of_lt h, List.take_length]

/-- Witness for the amended round-trip at a concrete pair. -/
theorem c1_roundtrip_u32_witness :
    (encode [1, 2, 3] [9]).bind (fun e => decode e [9]) = some [1, 2, 3] :=
  c1_roundtrip_u32 [1, 2, 3] [9] (by decide)

/-- Claim C2 (code bug): a failing reference read while serving
`XD3_GETSRCBLK` does not make the operation return failure; `getblk`
discards `prepare`'s error and `block_range`'s assertion panics. Concrete
run, in both modes: `block_count = 2`, `max_winsize = 2`, reference `[5, 6]`
with its second read failing, engine requesting block `2`. -/
theorem c2_srcblk_read_error_asserts :
    encode_async (reqBlockEngine 2) () 5 2 2 (Reader.ofList [9])
        (Reader.mk [some 10, none] [5, 6]) (Sink.mk [] true [])
      = (.asserted, [.read 1, .stepped .XD3_GETSRCBLK]) ∧
    decode_async (reqBlockEngine 2) () 5 2 2 (Reader.ofList [9])
        (Reader.mk [some 10, none] [5, 6]) (Sink.mk [] true [])
      = (.asserted, [.read 1, .stepped .XD3_GETSRCBLK]) := by
  constructor
  · decide
  · decide

/-- Claim C4 counterexample: after end-of-stream is known, `getblk` reports
`max_blkno = block_offset + block_count - 1` (the top of the window), not
the index of the last block that actually contains reference bytes. With
`block_count = 2`, `max_winsize = 4` and a one-byte reference, the reported
`max_blkno` is `1` while the only data-bearing block is `0`. -/
theorem c4_max_blkno_counterexample :
    ((SrcBuffer.new 2 4 (Reader.ofList [7])).bind
        (fun s => ((s.withGetblkno 0).getblk).toOption)).map
      (fun t => (t.src.max_blkno, t.src.onlastblk, (t.read_len - 1) / t.src.blksize))
      = some (1, 1, 0) ∧ (1 : Nat) ≠ 0 := by
  constructor
  · decide
  · decide

/-- Claim C8 (code bug): with a reference longer than one window the final,
shorter-than-`blksize` block is served wrongly. With `block_count = 2`,
`max_winsize = 4` (so `blksize = 2`) and reference `[1, 2, 3, 4, 5]`,
requesting blocks `0, 1, 2` in order leaves block `2` served as the two
bytes `[5, 2]` (`onblk = 2`, the second byte stale from the first fill of
the circular buffer), while the reference's block `2` is the single byte
`[5]`; `read_len` does reach the true total length `5`. -/
theorem c8_stale_final_block :
    ((SrcBuffer.new 2 4 (Reader.ofList [1, 2, 3, 4, 5])).bind (fun s =>
      ((s.withGetblkno 0).getblk).toOption.bind (fun s =>
        ((s.withGetblkno 1).getblk).toOption.bind (fun s =>
          ((s.withGetblkno 2).getblk).toOption)))).map
      (fun t => (t.src.curblk, t.src.onblk, t.read_len)) = some ([5, 2], 2, 5) ∧
    refBlock [1, 2, 3, 4, 5] 2 2 = [5] ∧ ([5, 2] : List Nat) ≠ [5] := by
  refine ⟨by decide, by decide, by decide⟩

/-- A reader with an exhausted schedule serves as many bytes as possible. -/
theorem Reader.read_nilSched (d : List Nat) (req : Nat) :
    (Reader.mk [] d).read req =
      some (d.take (min req d.length), ⟨[], d.drop (min req d.length)⟩) := rfl

/-- The state `SrcBuffer::new` builds over a well-behaved reader, in closed
form. -/
theorem SrcBuffer.new_ofList (bc mw : Nat) (data : List Nat) :
    SrcBuffer.new bc mw (Reader.ofList data) =
      some { src := { Xd3Source.zeroed with
                        blksize := mw / bc,
                        max_winsize := mw },
             read := ⟨[], data.drop (min mw data.length)⟩,
             read_len := min mw data.length,
             eof_known := min mw data.length != mw,
             block_count := bc, block_offset := 0,
             buf := setRange (List.replicate mw 0) 0
                      (data.take (min mw data.length)) } := by
  have hk : (data.take (min mw data.length)).length = min mw data.length := by
    rw [List.length_take]
    omega
  simp only [SrcBuffer.new, Reader.ofList, Reader.read, List.length_replicate, hk]

/-- Construction establishes the cache invariant. -/
theorem cacheInv_new {bc mw : Nat} {data : List Nat} {s : SrcBuffer}
    (h : SrcBuffer.new bc mw (Reader.ofList data) = some s) :
    CacheInv bc mw data s := by
  rw [SrcBuffer.new_ofList, Option.some.injEq] at h
  subst h
  constructor
  · rfl
  · rfl
  · show min mw data.length ≤ data.length
    omega
  · show (min mw data.length != mw) = true → data.length ≤ min mw data.length
    intro he
    rw [bne_iff_ne] at he
    omega
  · rfl
  · rfl
  · show min mw data.length ≤ mw + 0 * (mw / bc)
    omega

/-- A successful `fetch` preserves the cache invariant; moreover a short
read (`b = true`) means the whole stream is consumed. -/
theorem cacheInv_fetch {bc mw : Nat} {data : List Nat} {s : SrcBuffer}
    {b : Bool} {s' : SrcBuffer} (inv : CacheInv bc mw data s)
    (h : s.fetch = .ok (some (b, s'))) :
    CacheInv bc mw data s' ∧ (b = true → data.length ≤ s'.read_len) := by
  obtain ⟨src, ⟨rs, rd⟩, rl, eof, bcnt, off, buf⟩ := s
  obtain ⟨hsched, hcontent, hbound, heofC, hbcF, hblksF, hwinB⟩ := inv
  simp only at hsched hcontent hbound heofC hbcF hblksF hwinB
  subst hsched
  simp only [SrcBuffer.fetch] at h
  split at h
  · simp at h
  · rename_i start stop hbr
    simp only [Reader.read_nilSched, Except.ok.injEq, Option.some.injEq,
      Prod.mk.injEq] at h
    obtain ⟨hb, hs⟩ := h
    subst hs
    -- facts about the byte range served
    have hrange : stop - start ≤ mw / bc := by
      simp only [SrcBuffer.block_range] at hbr
      split at hbr
      · simp only [Except.ok.injEq, Prod.mk.injEq] at hbr
        obtain ⟨h1, h2⟩ := hbr
        rw [hblksF] at h1 h2
        have hm : mw / bc * (off % bcnt + 1)
            = mw / bc * (off % bcnt) + mw / bc := by ring
        omega
      · simp at hbr
    have hklen : (rd.take (min (stop - start) rd.length)).length
        = min (stop - start) rd.length := by
      rw [List.length_take]
      omega
    have hrdlen : rd.length = data.length - rl := by
      rw [hcontent, List.length_drop]
    constructor
    · constructor
      · rfl
      · show rd.drop (min (stop - start) rd.length) = data.drop _
        rw [hklen, hcontent, List.drop_drop]
      · show rl + (rd.take (min (stop - start) rd.length)).length ≤ data.length
        rw [hklen]
        omega
      · intro he
        simp only at he
        refine (heofC he).trans ?_
        show rl ≤ rl + (rd.take (min (stop - start) rd.length)).length
        omega
      · exact hbcF
      · exact hblksF
      · show rl + (rd.take (min (stop - start) rd.length)).length
            ≤ mw + (off + 1) * (mw / bc)
        rw [hklen]
        have hm : (off + 1) * (mw / bc) = off * (mw / bc) + mw / bc := by ring
        omega
    · intro hbt
      rw [← hb, bne_iff_ne] at hbt
      show data.length ≤ rl + (rd.take (min (stop - start) rd.length)).length
      rw [hklen] at hbt ⊢
      omega

/-- The lookahead loop preserves the cache invariant. -/
theorem cacheInv_prepareAux {bc mw : Nat} {data : List Nat} :
    ∀ (gas : Nat) (s : SrcBuffer) (idx : Nat) (r : Option Unit) (s' : SrcBuffer),
      CacheInv bc mw data s →
      SrcBuffer.prepareAux gas s idx = .ok (r, s') → CacheInv bc mw data s' := by
  intro gas
  induction gas with
  | zero =>
      intro s idx r s' inv h
      simp only [SrcBuffer.prepareAux, Except.ok.injEq, Prod.mk.injEq] at h
      obtain ⟨-, hs⟩ := h
      subst hs
      exact inv
  | succ gas ih =>
      intro s idx r s' inv h
      simp only [SrcBuffer.prepareAux] at h
      split at h
      · split at h
        · simp at h
        · simp only [Except.ok.injEq, Prod.mk.injEq] at h
          obtain ⟨-, hs⟩ := h
          subst hs
          exact inv
        · rename_i eofHit s1 hf
          obtain ⟨inv1, heof⟩ := cacheInv_fetch inv hf
          cases eofHit with
          | true =>
              rw [if_pos rfl] at h
              simp only [Except.ok.injEq, Prod.mk.injEq] at h
              obtain ⟨-, hs⟩ := h
              subst hs
              obtain ⟨i1, i2, i3, i4, i5, i6, i7⟩ := inv1
              exact ⟨i1, i2, i3, fun _ => heof rfl, i5, i6, i7⟩
          | false =>
              rw [if_neg Bool.false_ne_true] at h
              exact ih s1 idx r s' inv1 h
      · simp only [Except.ok.injEq, Prod.mk.injEq] at h
        obtain ⟨-, hs⟩ := h
        subst hs
        exact inv

/-- `getblk` (after the engine wrote `getblkno`) preserves the cache
invariant. -/
theorem cacheInv_getblk {bc mw : Nat} {data : List Nat} {s s' : SrcBuffer}
    {n : Nat} (inv : CacheInv bc mw data s)
    (h : (s.withGetblkno n).getblk = .ok s') : CacheInv bc mw data s' := by
  have invg : CacheInv bc mw data (s.withGetblkno n) := by
    obtain ⟨h1, h2, h3, h4, h5, h6, h7⟩ := inv
    exact ⟨h1, h2, h3, h4, h5, h6, h7⟩
  simp only [SrcBuffer.getblk, SrcBuffer.prepare] at h
  split at h
  · simp at h
  · rename_i r s1 hp
    have inv1 := cacheInv_prepareAux _ _ _ _ _ invg hp
    split at h
    · simp at h
    · simp only [Except.ok.injEq] at h
      subst h
      obtain ⟨i1, i2, i3, i4, i5, i6, i7⟩ := inv1
      refine ⟨i1, i2, i3, i4, i5, ?_, i7⟩
      show Xd3Source.blksize _ = mw / bc
      split <;> exact i6

/-- Every reachable cache state satisfies the cache invariant. -/
theorem reached_cacheInv {bc mw : Nat} {data : List Nat} {s : SrcBuffer}
    (h : Reached bc mw data s) : CacheInv bc mw data s := by
  induction h with
  | init s hnew => exact cacheInv_new hnew
  | step s s' n hr hgb ih => exact cacheInv_getblk ih hgb

/-- Monotonicity and frame facts of the lookahead loop: the window offset
never decreases, end-of-stream knowledge never reverts, the descriptor and
block count are untouched, `read_len` never decreases. -/
theorem prepareAux_mono :
    ∀ (gas : Nat) (s : SrcBuffer) (idx : Nat) (r : Option Unit) (s' : SrcBuffer),
      SrcBuffer.prepareAux gas s idx = .ok (r, s') →
      s.block_offset ≤ s'.block_offset ∧
      (s.eof_known = true → s'.eof_known = true) ∧
      s'.block_count = s.block_count ∧ s'.src = s.src ∧
      s.read_len ≤ s'.read_len := by
  intro gas
  induction gas with
  | zero =>
      intro s idx r s' h
      simp only [SrcBuffer.prepareAux, Except.ok.injEq, Prod.mk.injEq] at h
      obtain ⟨-, hs⟩ := h
      subst hs
      exact ⟨le_refl _, fun he => he, rfl, rfl, le_refl _⟩
  | succ gas ih =>
      intro s idx r s' h
      simp only [SrcBuffer.prepareAux] at h
      split at h
      · split at h
        · simp at h
        · simp only [Except.ok.injEq, Prod.mk.injEq] at h
          obtain ⟨-, hs⟩ := h
          subst hs
          exact ⟨le_refl _, fun he => he, rfl, rfl, le_refl _⟩
        · rename_i eofHit s1 hf
          obtain ⟨f1, f2, f3, f4, f5⟩ := SrcBuffer.fetch_frame hf
          cases eofHit with
          | true =>
              rw [if_pos rfl] at h
              simp only [Except.ok.injEq, Prod.mk.injEq] at h
              obtain ⟨-, hs⟩ := h
              subst hs
              exact ⟨show s.block_offset ≤ s1.block_offset by omega,
                fun _ => rfl, f4, f3, f5⟩
          | false =>
              rw [if_neg Bool.false_ne_true] at h
              obtain ⟨g1, g2, g3, g4, g5⟩ := ih s1 idx r s' h
              refine ⟨by omega, ?_, by rw [g3, f4], by rw [g4, f3], by omega⟩
              intro he
              exact g2 (by rw [f2]; exact he)
      · simp only [Except.ok.injEq, Prod.mk.injEq] at h
        obtain ⟨-, hs⟩ := h
        subst hs
        exact ⟨le_refl _, fun he => he, rfl, rfl, le_refl _⟩

/-- Monotonicity and frame facts of `getblk`. -/
theorem getblk_mono {s s' : SrcBuffer} (h : s.getblk = .ok s') :
    s.block_offset ≤ s'.block_offset ∧
    (s.eof_known = true → s'.eof_known = true) ∧
    s'.block_count = s.block_count ∧ s'.src.blksize = s.src.blksize ∧
    s.read_len ≤ s'.read_len := by
  simp only [SrcBuffer.getblk, SrcBuffer.prepare] at h
  split at h
  · simp at h
  · rename_i r s1 hp
    obtain ⟨m1, m2, m3, m4, m5⟩ := prepareAux_mono _ _ _ _ _ hp
    split at h
    · simp at h
    · simp only [Except.ok.injEq] at h
      subst h
      refine ⟨m1, m2, m3, ?_, m5⟩
      show Xd3Source.blksize _ = s.src.blksize
      split <;> rw [show s1.src = s.src from m4]

/-- Claim C5: every operation of the source block cache (`fetch`, `prepare`,
`getblk`) preserves the invariants that `block_offset` never decreases and
that `eof_known`, once true, never becomes false again. -/
theorem c5_cache_monotone :
    (∀ (s : SrcBuffer) (b : Bool) (s' : SrcBuffer),
      s.fetch = .ok (some (b, s')) →
      s.block_offset ≤ s'.block_offset ∧
      (s.eof_known = true → s'.eof_known = true)) ∧
    (∀ (s : SrcBuffer) (idx : Nat) (r : Option Unit) (s' : SrcBuffer),
      s.prepare idx = .ok (r, s') →
      s.block_offset ≤ s'.block_offset ∧
      (s.eof_known = true → s'.eof_known = true)) ∧
    (∀ (s s' : SrcBuffer), s.getblk = .ok s' →
      s.block_offset ≤ s'.block_offset ∧
      (s.eof_known = true → s'.eof_known = true)) := by
  refine ⟨?_, ?_, ?_⟩
  · intro s b s' h
    obtain ⟨h1, h2, -, -, -⟩ := SrcBuffer.fetch_frame h
    exact ⟨by omega, fun he => by rw [h2]; exact he⟩
  · intro s idx r s' h
    simp only [SrcBuffer.prepare] at h
    obtain ⟨h1, h2, -, -, -⟩ := prepareAux_mono _ _ _ _ _ h
    exact ⟨h1, h2⟩
  · intro s s' h
    obtain ⟨h1, h2, -, -, -⟩ := getblk_mono h
    exact ⟨h1, h2⟩

/-- Once end of stream is known, `prepare` is a no-op: the lookahead guard
fails immediately. -/
theorem SrcBuffer.prepare_eof {s : SrcBuffer} (he : s.eof_known = true)
    (idx : Nat) : s.prepare idx = .ok (some (), s) := by
  unfold SrcBuffer.prepare
  cases hg : idx + 1 - s.block_offset with
  | zero => rfl
  | succ g =>
      simp only [SrcBuffer.prepareAux]
      rw [if_neg]
      rintro ⟨hne, -⟩
      exact hne he

/-- What `getblk` reports after end of stream is known: the lookahead is a
no-op, and the descriptor receives the window-top block number and
`read_len mod blksize` (the `else` arm of the source, lines 246-249). -/
theorem SrcBuffer.getblk_eof {s : SrcBuffer} {n : Nat} {s' : SrcBuffer}
    (he : s.eof_known = true) (h : (s.withGetblkno n).getblk = .ok s') :
    s'.src.max_blkno = s.block_offset + s.block_count - 1 ∧
    s'.src.onlastblk = s.read_len % s.src.blksize ∧
    s'.src.eof_known = true ∧
    s'.read_len = s.read_len ∧ s'.block_offset = s.block_offset ∧
    s'.block_count = s.block_count ∧ s'.src.blksize = s.src.blksize := by
  have hew : (s.withGetblkno n).eof_known = true := he
  simp only [SrcBuffer.getblk, SrcBuffer.prepare_eof hew] at h
  split at h
  · simp at h
  · simp only [Except.ok.injEq] at h
    subst h
    rw [if_neg (by rw [hew]; exact fun hc => hc rfl)]
    exact ⟨rfl, rfl, rfl, rfl, rfl, rfl, rfl⟩

/-- Claim C3: for a reference stream whose total length is not a multiple of
`blksize`, once end of stream is known every `getblk` reports `onlastblk`
equal to the length of the final, shorter-than-`blksize` block, which is
`total_length mod blksize`. -/
theorem c3_onlastblk_eq_mod {bc mw : Nat} {data : List Nat} {s s' : SrcBuffer}
    {n : Nat} (hr : Reached bc mw data s) (he : s.eof_known = true)
    (hblk : 0 < mw / bc) (hnm : data.length % (mw / bc) ≠ 0)
    (h : (s.withGetblkno n).getblk = .ok s') :
    s'.src.onlastblk = data.length % (mw / bc) ∧
    s'.src.onlastblk < mw / bc := by
  have inv := reached_cacheInv hr
  have hrl : s.read_len = data.length := le_antisymm inv.bound (inv.eofC he)
  obtain ⟨-, h2, -, -, -, -, -⟩ := SrcBuffer.getblk_eof he h
  rw [h2, hrl, inv.blksF]
  exact ⟨rfl, Nat.mod_lt _ hblk⟩

/-- Witness for C3 at the concrete state `sbuf1` (reference `[1, 2, 3]`,
`blksize = 2`): the reported `onlastblk` is `3 mod 2 = 1`. -/
theorem c3_onlastblk_eq_mod_witness :
    (sbuf1.withGetblkno 0).getblk.toOption.map (fun t => t.src.onlastblk)
      = some 1 := by
  cases hgb : (sbuf1.withGetblkno 0).getblk with
  | error f =>
      cases f
      exact absurd hgb (by decide)
  | ok s' =>
      have hreach : Reached 2 4 [1, 2, 3] sbuf1 :=
        Reached.init sbuf1 (by decide)
      have h := c3_onlastblk_eq_mod hreach (by decide) (by decide) (by decide)
        hgb
      simp only [Except.toOption, Option.map_some', Option.some.injEq]
      exact h.1

/-- Claim C4 amended: after end of stream is known, `getblk` reports
`max_blkno = block_offset + block_count - 1` (the top of the current window)
and `onlastblk = read_len mod blksize`; `max_blkno` equals the index of the
last block actually containing reference bytes only when the end of the
reference falls inside the window's top block. -/
theorem c4_max_blkno_window_top {bc mw : Nat} {data : List Nat}
    {s s' : SrcBuffer} {n : Nat} (hr : Reached bc mw data s)
    (hdvd : bc ∣ mw) (he : s.eof_known = true)
    (h : (s.withGetblkno n).getblk = .ok s') :
    s'.src.max_blkno = s.block_offset + s.block_count - 1 ∧
    s'.src.onlastblk = s.read_len % (mw / bc) ∧
    ((s.block_offset + bc - 1) * (mw / bc) < s.read_len →
      s'.src.max_blkno = (s.read_len - 1) / (mw / bc)) := by
  have inv := reached_cacheInv hr
  obtain ⟨h1, h2, -, -, -, hbc, -⟩ := SrcBuffer.getblk_eof he h
  refine ⟨h1, by rw [h2, inv.blksF], ?_⟩
  intro hlt
  -- the window bound of the invariant, with no slack since bc divides mw
  have hslack : bc * (mw / bc) = mw := Nat.mul_div_cancel' hdvd
  have hwin : s.read_len ≤ mw + s.block_offset * (mw / bc) := inv.winB
  have hup : s.read_len ≤ (s.block_offset + bc) * (mw / bc) := by
    have hm : (s.block_offset + bc) * (mw / bc)
        = s.block_offset * (mw / bc) + bc * (mw / bc) := by ring
    omega
  have hblkpos : 0 < mw / bc := by
    rcases Nat.eq_zero_or_pos (mw / bc) with h0 | h0
    · rw [h0] at hup
      omega
    · exact h0
  have hoff : 1 ≤ s.block_offset + bc := by
    rcases Nat.eq_zero_or_pos (s.block_offset + bc) with h0 | h0
    · rw [h0] at hup
      omega
    · exact h0
  have hdiv : (s.read_len - 1) / (mw / bc) = s.block_offset + bc - 1 := by
    apply Nat.div_eq_of_lt_le
    · exact Nat.le_sub_one_of_lt hlt
    · have hm : (s.block_offset + bc - 1 + 1) * (mw / bc)
          = (s.block_offset + bc) * (mw / bc) := by
        congr 1
        omega
      rw [hm]
      omega
  rw [h1, hdiv, inv.bcF]

/-- Witness for the amended C4 at the concrete state `sbuf1`: the reported
`max_blkno` is the window top `0 + 2 - 1 = 1` and `onlastblk` is
`3 mod 2 = 1`. -/
theorem c4_max_blkno_window_top_witness :
    (sbuf1.withGetblkno 0).getblk.toOption.map
      (fun t => (t.src.max_blkno, t.src.onlastblk)) = some (1, 1) := by
  cases hgb : (sbuf1.withGetblkno 0).getblk with
  | error f =>
      cases f
      exact absurd hgb (by decide)
  | ok s' =>
      have hreach : Reached 2 4 [1, 2, 3] sbuf1 :=
        Reached.init sbuf1 (by decide)
      obtain ⟨h1, h2, -⟩ := c4_max_blkno_window_top hreach (by decide)
        (by decide) hgb
      simp only [Except.toOption, Option.map_some', Option.some.injEq]
      rw [h1, h2]
      decide

/-- Witness for C5: applying the `getblk` part at the concrete state
`sbuf1`. -/
theorem c5_cache_monotone_witness :
    (sbuf1.withGetblkno 0).getblk.toOption.map
      (fun t => decide (sbuf1.block_offset ≤ t.block_offset)) = some true := by
  cases hgb : (sbuf1.withGetblkno 0).getblk with
  | error f =>
      cases f
      exact absurd hgb (by decide)
  | ok s' =>
      have h := (c5_cache_monotone.2.2 (sbuf1.withGetblkno 0) s' hgb).1
      simp only [Except.toOption, Option.map_some', Option.some.injEq,
        decide_eq_true_eq]
      exact h

/-- Claim C6: construction of the cache performs exactly one read attempt
into a buffer of size `max_winsize` (the resulting reader has advanced by
exactly that one call), records the returned byte count as `read_len`, sets
`eof_known` exactly when that count is less than the buffer size, and
returns no cache when the initial read fails. -/
theorem c6_new_one_read (bc mw : Nat) (r : Reader) :
    (r.read mw = none → SrcBuffer.new bc mw r = none) ∧
    (∀ (chunk : List Nat) (r1 : Reader), r.read mw = some (chunk, r1) →
      ∃ s, SrcBuffer.new bc mw r = some s ∧ s.read = r1 ∧
        s.read_len = chunk.length ∧ s.buf.length = mw ∧
        (s.eof_known = true ↔ chunk.length < mw)) := by
  constructor
  · intro h
    simp only [SrcBuffer.new, List.length_replicate, h]
  · intro chunk r1 h
    have hle : chunk.length ≤ mw := Reader.read_len_le h
    simp only [SrcBuffer.new, List.length_replicate, h]
    refine ⟨_, rfl, rfl, rfl, ?_, ?_⟩
    · show (setRange (List.replicate mw 0) 0 chunk).length = mw
      simp only [setRange, List.take_zero, List.nil_append, List.length_append,
        List.length_drop, List.length_replicate, Nat.zero_add]
      omega
    · show (chunk.length != mw) = true ↔ chunk.length < mw
      rw [bne_iff_ne]
      omega

/-- Witness for C6 at a concrete reader: a four-byte window over a one-byte
reference reads once, records `read_len = 1` and knows end of stream. -/
theorem c6_new_one_read_witness :
    (SrcBuffer.new 2 4 (Reader.ofList [7])).map
      (fun s => (s.read_len, s.buf.length, s.eof_known)) = some (1, 4, true) := by
  obtain ⟨s, hs, hrd, h1, h2, h3⟩ :=
    (c6_new_one_read 2 4 (Reader.ofList [7])).2 [7] ⟨[], []⟩ (by decide)
  rw [hs, Option.map_some']
  have he : s.eof_known = true := h3.mpr (by decide)
  rw [h1, h2, he]
  rfl

/-- Claim C10: for every block index inside the current window the
block-range computation succeeds with a range of length at most `blksize`;
for every index outside the window it fails the assertion. -/
theorem c10_block_range_window (s : SrcBuffer) (idx : Nat) :
    (s.block_offset ≤ idx ∧ idx < s.block_offset + s.block_count →
      ∃ a b, s.block_range idx = .ok (a, b) ∧ b - a ≤ s.src.blksize) ∧
    (¬ (s.block_offset ≤ idx ∧ idx < s.block_offset + s.block_count) →
      s.block_range idx = .error .assertFail) := by
  constructor
  · intro hin
    refine ⟨min (s.src.blksize * (idx % s.block_count)) s.read_len,
      min (s.src.blksize * (idx % s.block_count + 1)) s.read_len, ?_, ?_⟩
    · simp only [SrcBuffer.block_range, if_pos hin]
    · have hm : s.src.blksize * (idx % s.block_count + 1)
          = s.src.blksize * (idx % s.block_count) + s.src.blksize := by ring
      omega
  · intro hout
    simp only [SrcBuffer.block_range, if_neg hout]

/-- Witness for C10 at the concrete state `sbuf1`: index 5 is outside the
window `[0, 2)` and asserts, index 0 is inside and yields a range no longer
than `blksize`. -/
theorem c10_block_range_window_witness :
    sbuf1.block_range 5 = .error .assertFail ∧
    (sbuf1.block_range 0).toOption.map
      (fun p => decide (p.2 - p.1 ≤ sbuf1.src.blksize)) = some true := by
  constructor
  · exact (c10_block_range_window sbuf1 5).2 (by decide)
  · obtain ⟨a, b, h, hle⟩ := (c10_block_range_window sbuf1 0).1 (by decide)
    rw [h]
    simp only [Except.toOption, Option.map_some', Option.some.injEq,
      decide_eq_true_eq]
    exact hle

/-- What one successful `write` does: the accepted bytes are appended to the
sink in order, at most `data.length` and (for nonempty data) at least one
byte is accepted, the flush flag is untouched, and the remaining schedule is
a subset of the old one. -/
theorem Sink.write_spec {w : Sink} {data : List Nat} {n : Nat} {w' : Sink}
    (h : w.write data = some (n, w')) :
    w'.written = w.written ++ data.take n ∧ n ≤ data.length ∧
    (data.length ≠ 0 → 1 ≤ n) ∧ w'.flushOk = w.flushOk ∧
    (∀ e ∈ w'.sched, e ∈ w.sched) := by
  rcases w with ⟨sched, fl, written⟩
  rcases sched with _ | ⟨_ | cap, rest⟩ <;>
    simp only [Sink.write, Option.some.injEq, Prod.mk.injEq,
      reduceCtorEq] at h
  · obtain ⟨hn, hw⟩ := h
    subst hn hw
    refine ⟨by rw [List.take_length], le_refl _, fun h => by omega, rfl, ?_⟩
    intro e he
    exact he
  · obtain ⟨hn, hw⟩ := h
    subst hn hw
    refine ⟨rfl, by omega, fun h => by omega, rfl, ?_⟩
    intro e he
    exact List.mem_cons_of_mem _ he

/-- A sink whose schedule holds no failing entry accepts every write. -/
theorem Sink.write_total {w : Sink} (data : List Nat)
    (hs : ∀ e ∈ w.sched, e ≠ none) : ∃ p, w.write data = some p := by
  rcases w with ⟨sched, fl, written⟩
  cases sched with
  | nil => exact ⟨_, rfl⟩
  | cons e rest =>
      cases e with
      | none => exact absurd rfl (hs none (List.mem_cons_self _ _))
      | some cap => exact ⟨_, rfl⟩

/-- A successful run of the write-and-advance loop delivers exactly the
given bytes, in order, after whatever the sink already held. -/
theorem writeAllAux_spec :
    ∀ (gas : Nat) (w : Sink) (data : List Nat) (w' : Sink),
      writeAllAux gas w data = some w' →
      w'.written = w.written ++ data ∧ w'.flushOk = w.flushOk := by
  intro gas
  induction gas with
  | zero =>
      intro w data w' h
      simp only [writeAllAux] at h
      split at h
      · rename_i hemp
        simp only [Option.some.injEq] at h
        subst h
        rw [List.isEmpty_iff.mp hemp]
        exact ⟨by simp, rfl⟩
      · simp at h
  | succ gas ih =>
      intro w data w' h
      simp only [writeAllAux] at h
      split at h
      · rename_i hemp
        simp only [Option.some.injEq] at h
        subst h
        rw [List.isEmpty_iff.mp hemp]
        exact ⟨by simp, rfl⟩
      · split at h
        · simp at h
        · rename_i n1 w1 hw
          obtain ⟨hwr, hn, -, hfl, -⟩ := Sink.write_spec hw
          obtain ⟨ih1, ih2⟩ := ih w1 (data.drop n1) w' h
          constructor
          · rw [ih1, hwr, List.append_assoc, List.take_append_drop]
          · rw [ih2, hfl]

/-- The write-and-advance loop succeeds on any sink whose schedule holds no
failing entry: partial writes only repeat the loop, they cannot make it
fail or hang. -/
theorem writeAllAux_total :
    ∀ (gas : Nat) (w : Sink) (data : List Nat),
      data.length ≤ gas → (∀ e ∈ w.sched, e ≠ none) →
      ∃ w', writeAllAux gas w data = some w' := by
  intro gas
  induction gas with
  | zero =>
      intro w data hlen hs
      have : data = [] := List.eq_nil_of_length_eq_zero (by omega)
      subst this
      exact ⟨w, rfl⟩
  | succ gas ih =>
      intro w data hlen hs
      by_cases hemp : data.isEmpty
      · exact ⟨w, by simp only [writeAllAux, hemp, if_pos]⟩
      · obtain ⟨⟨n, w1⟩, hw⟩ := Sink.write_total data hs
        obtain ⟨-, hn, hpos, -, hsub⟩ := Sink.write_spec hw
        have hlen1 : data.length ≠ 0 := by
          intro hc
          exact hemp (List.isEmpty_iff.mpr (List.eq_nil_of_length_eq_zero hc))
        obtain ⟨w', hrec⟩ := ih w1 (data.drop n)
          (by rw [List.length_drop]; have := hpos hlen1; omega)
          (fun e he => hs e (hsub e he))
        refine ⟨w', ?_⟩
        simp only [writeAllAux, hemp, if_neg, Bool.false_eq_true,
          not_false_iff, hw]
        exact hrec

/-- Claim C7: on every output-ready signal all produced bytes are written to
the sink before the engine is stepped again (the `XD3_OUTPUT` arm completes
`handleOutput` first), the write repeats over arbitrarily short partial
writes until nothing remains, the available-output count is reset to zero
after the flush, and a sink accepting only a few bytes per write still
receives the complete output in order (the loop cannot fail on such a
sink). -/
theorem c7_output_flush_complete :
    (∀ (out : Sink) (out_data : List Nat) (out1 : Sink),
      writeAll out out_data = some out1 →
      out1.written = out.written ++ out_data) ∧
    (∀ (stream : StreamSt) (out : Sink) (stream1 : StreamSt) (out1 : Sink),
      handleOutput stream out = some (stream1, out1) →
      out1.written = out.written ++ stream.next_out.take stream.avail_out ∧
      stream1.avail_out = 0) ∧
    (∀ (out : Sink) (out_data : List Nat),
      (∀ e ∈ out.sched, e ≠ none) →
      ∃ out1, writeAll out out_data = some out1) := by
  refine ⟨?_, ?_, ?_⟩
  · intro out out_data out1 h
    exact (writeAllAux_spec _ _ _ _ h).1
  · intro stream out stream1 out1 h
    simp only [handleOutput] at h
    split at h
    · simp at h
    · rename_i w1 hw
      simp only [Option.some.injEq, Prod.mk.injEq] at h
      obtain ⟨hst, hout⟩ := h
      subst hst hout
      exact ⟨(writeAllAux_spec _ _ _ _ hw).1, rfl⟩
  · intro out out_data hs
    exact writeAllAux_total _ _ _ (le_refl _) hs

/-- Witness for C7: a sink accepting one byte per write receives `[1, 2, 3]`
completely and in order. -/
theorem c7_output_flush_complete_witness :
    (writeAll ⟨[some 0, some 0, some 0], true, []⟩ [1, 2, 3]).map
      Sink.written = some [1, 2, 3] := by
  obtain ⟨w1, hw⟩ := c7_output_flush_complete.2.2
    ⟨[some 0, some 0, some 0], true, []⟩ [1, 2, 3] (by decide)
  have hc := c7_output_flush_complete.1 _ _ _ hw
  rw [hw, Option.map_some', hc]
  rfl

/-- The output arm leaves the flush flag untouched: `handleOutput` only
writes bytes and resets `avail_out`. -/
theorem handleOutput_flags {stream : StreamSt} {out : Sink}
    {stream1 : StreamSt} {out1 : Sink}
    (h : handleOutput stream out = some (stream1, out1)) :
    stream1.flags = stream.flags := by
  simp only [handleOutput] at h
  split at h
  · simp at h
  · simp only [Option.some.injEq, Prod.mk.injEq] at h
    obtain ⟨h1, -⟩ := h
    subst h1
    rfl

/-- Trace and exit behavior of the inner signal loop: every recorded event
is an engine step (it reads no input, performs no flush, never touches the
flush flag), and when it exits to the outer cycle the handed-back stream
carries the unchanged flush flag and the trace ends with the `XD3_INPUT`
step that caused the exit. -/
theorem innerLoop_spec {σ : Type} (E : Engine σ) (mode : Mode) :
    ∀ (fuel : Nat) (eg : σ) (stream : StreamSt) (sb : SrcBuffer) (out : Sink),
      (∀ e ∈ (innerLoop E mode fuel eg stream sb out).2,
        ∃ rv, e = Ev.stepped rv) ∧
      (∀ (eg1 : σ) (st1 : StreamSt) (sb1 : SrcBuffer) (out1 : Sink),
        (innerLoop E mode fuel eg stream sb out).1 = .toOuter eg1 st1 sb1 out1 →
        st1.flags = stream.flags ∧
        ∃ t0, (innerLoop E mode fuel eg stream sb out).2
            = t0 ++ [Ev.stepped .XD3_INPUT]) := by
  intro fuel
  induction fuel with
  | zero =>
      intro eg stream sb out
      constructor
      · intro e he
        simp only [innerLoop, List.not_mem_nil] at he
      · intro eg1 st1 sb1 out1 h1
        simp only [innerLoop] at h1
        exact absurd h1 (by simp)
  | succ fuel ih =>
      intro eg stream sb out
      simp only [innerLoop]
      split
      · -- XD3_INPUT
        constructor
        · intro e he
          simp only [List.mem_cons, List.not_mem_nil, or_false] at he
          exact ⟨_, he⟩
        · intro eg1 st1 sb1 out1 h1
          simp only [InnerOut.toOuter.injEq] at h1
          obtain ⟨-, hst, -, -⟩ := h1
          subst hst
          exact ⟨rfl, [], rfl⟩
      · -- XD3_OUTPUT
        split
        · -- write failed
          constructor
          · intro e he
            simp only [List.mem_cons, List.not_mem_nil, or_false] at he
            exact ⟨_, he⟩
          · intro eg1 st1 sb1 out1 h1
            exact absurd h1 (by simp)
        · -- write succeeded, loop again
          rename_i stream2 out2 hho
          constructor
          · intro e he
            simp only [List.mem_cons] at he
            rcases he with h | h
            · exact ⟨_, h⟩
            · exact (ih _ _ _ _).1 e h
          · intro eg1 st1 sb1 out1 h1
            obtain ⟨hf, t0, ht⟩ := (ih _ _ _ _).2 _ _ _ _ h1
            refine ⟨?_, Ev.stepped .XD3_OUTPUT :: t0, ?_⟩
            · rw [hf, handleOutput_flags hho]
            · rw [ht]
              rfl
      · -- XD3_GETSRCBLK
        split
        · -- getblk asserted
          constructor
          · intro e he
            simp only [List.mem_cons, List.not_mem_nil, or_false] at he
            exact ⟨_, he⟩
          · intro eg1 st1 sb1 out1 h1
            exact absurd h1 (by simp)
        · -- block served, loop again
          constructor
          · intro e he
            simp only [List.mem_cons] at he
            rcases he with h | h
            · exact ⟨_, h⟩
            · exact (ih _ _ _ _).1 e h
          · intro eg1 st1 sb1 out1 h1
            obtain ⟨hf, t0, ht⟩ := (ih _ _ _ _).2 _ _ _ _ h1
            refine ⟨hf, Ev.stepped .XD3_GETSRCBLK :: t0, ?_⟩
            rw [ht]
            rfl
      · -- XD3_GOTHEADER
        constructor
        · intro e he
          simp only [List.mem_cons] at he
          rcases he with h | h
          · exact ⟨_, h⟩
          · exact (ih _ _ _ _).1 e h
        · intro eg1 st1 sb1 out1 h1
          obtain ⟨hf, t0, ht⟩ := (ih _ _ _ _).2 _ _ _ _ h1
          refine ⟨hf, Ev.stepped .XD3_GOTHEADER :: t0, ?_⟩
          rw [ht]
          rfl
      · -- XD3_WINSTART
        constructor
        · intro e he
          simp only [List.mem_cons] at he
          rcases he with h | h
          · exact ⟨_, h⟩
          · exact (ih _ _ _ _).1 e h
        · intro eg1 st1 sb1 out1 h1
          obtain ⟨hf, t0, ht⟩ := (ih _ _ _ _).2 _ _ _ _ h1
          refine ⟨hf, Ev.stepped .XD3_WINSTART :: t0, ?_⟩
          rw [ht]
          rfl
      · -- XD3_WINFINISH
        constructor
        · intro e he
          simp only [List.mem_cons] at he
          rcases he with h | h
          · exact ⟨_, h⟩
          · exact (ih _ _ _ _).1 e h
        · intro eg1 st1 sb1 out1 h1
          obtain ⟨hf, t0, ht⟩ := (ih _ _ _ _).2 _ _ _ _ h1
          refine ⟨hf, Ev.stepped .XD3_WINFINISH :: t0, ?_⟩
          rw [ht]
          rfl
      all_goals (
        constructor
        · intro e he
          simp only [List.mem_cons, List.not_mem_nil, or_false] at he
          exact ⟨_, he⟩
        · intro eg1 st1 sb1 out1 h1
          exact absurd h1 (by simp))

/-- Once the final cycle has run (`eof = true`), the outer loop only flushes
the sink: it fails with an empty trace or succeeds with the single
`flushed` event. No read and no flush-flag assignment can follow. -/
theorem outerLoop_eofTrue {σ : Type} (E : Engine σ) (mode : Mode)
    (fuel : Nat) (eg : σ) (stream : StreamSt) (sb : SrcBuffer)
    (input : Reader) (out : Sink) :
    outerLoop E mode fuel eg stream sb input out true = (.failed, []) ∨
    outerLoop E mode fuel eg stream sb input out true = (.ok, [.flushed]) := by
  cases fuel with
  | zero =>
      simp only [outerLoop, if_true]
      cases hf : out.flush with
      | none => exact Or.inl rfl
      | some w => exact Or.inr rfl
  | succ f =>
      simp only [outerLoop, if_true]
      cases hf : out.flush with
      | none => exact Or.inl rfl
      | some w => exact Or.inr rfl

/-- Splitting a trace that starts with the zero-byte read: whatever follows
the leading `read 0` contains no read event, so no decomposition around a
`read 0` leaves a read event behind it. -/
theorem noRead_split_zero {tail : List Ev} (hnr : ∀ m, Ev.read m ∉ tail) :
    ∀ (t1 t2 : List Ev), Ev.read 0 :: tail = t1 ++ Ev.read 0 :: t2 →
      ∀ m, Ev.read m ∉ t2 := by
  intro t1 t2 h m hm
  cases t1 with
  | nil =>
      simp only [List.nil_append, List.cons.injEq] at h
      rw [h.2] at hnr
      exact hnr m hm
  | cons e t1' =>
      simp only [List.cons_append, List.cons.injEq] at h
      refine absurd ?_ (hnr 0)
      rw [h.2]
      simp

/-- Splitting a trace that starts with a nonzero read followed only by
engine steps: no decomposition around a `read 0` exists at all. -/
theorem noRead_split_simple {t : List Ev} {n : Nat} (hn0 : n ≠ 0)
    (hnoread : ∀ m, Ev.read m ∉ t) :
    ∀ (t1 t2 : List Ev), Ev.read n :: t = t1 ++ Ev.read 0 :: t2 →
      ∀ m, Ev.read m ∉ t2 := by
  intro t1 t2 h m hm
  cases t1 with
  | nil =>
      simp only [List.nil_append, List.cons.injEq] at h
      exact absurd (Ev.read.inj h.1) hn0
  | cons e t1' =>
      simp only [List.cons_append, List.cons.injEq] at h
      refine absurd ?_ (hnoread 0)
      rw [h.2]
      simp

/-- Splitting a trace made of a nonzero read, engine steps, and a
continuation: any decomposition around a `read 0` lands inside the
continuation, where the property is inherited. -/
theorem noRead_split_cont {t cont2 : List Ev} {n : Nat} (hn0 : n ≠ 0)
    (hnoread : ∀ m, Ev.read m ∉ t)
    (c2 : ∀ (t1 t2 : List Ev), cont2 = t1 ++ Ev.read 0 :: t2 →
      ∀ m, Ev.read m ∉ t2) :
    ∀ (t1 t2 : List Ev), Ev.read n :: (t ++ cont2) = t1 ++ Ev.read 0 :: t2 →
      ∀ m, Ev.read m ∉ t2 := by
  intro t1 t2 h m hm
  cases t1 with
  | nil =>
      simp only [List.nil_append, List.cons.injEq] at h
      exact absurd (Ev.read.inj h.1) hn0
  | cons e t1' =>
      simp only [List.cons_append, List.cons.injEq] at h
      rcases List.append_eq_append_iff.mp h.2 with ⟨a, ha1, ha2⟩ | ⟨c, hc1, hc2⟩
      · exact c2 a t2 ha2 m hm
      · cases c with
        | nil =>
            exact c2 [] t2 (by simpa using hc2.symm) m hm
        | cons e' c' =>
            simp only [List.cons_append, List.cons.injEq] at hc2
            refine absurd ?_ (hnoread 0)
            rw [hc1, ← hc2.1]
            simp

/-- Trace discipline of the outer read cycle, started (as `process_async`
starts it) with `eof = false`: the flush flag is set at most once over the
whole run; no input read ever follows a zero-byte read; and a successful
run ends, after the zero-byte read and the flush-flag assignment, with the
final inner cycle drained up to its `XD3_INPUT` step followed by the
successful sink flush. -/
theorem outerLoop_trace_props {σ : Type} (E : Engine σ) (mode : Mode) :
    ∀ (fuel : Nat) (eg : σ) (stream : StreamSt) (sb : SrcBuffer)
      (input : Reader) (out : Sink),
      ((outerLoop E mode fuel eg stream sb input out false).2.count
          Ev.setFlush ≤ 1) ∧
      (∀ (t1 t2 : List Ev),
        (outerLoop E mode fuel eg stream sb input out false).2
            = t1 ++ Ev.read 0 :: t2 →
        ∀ m, Ev.read m ∉ t2) ∧
      ((outerLoop E mode fuel eg stream sb input out false).1 = .ok →
        ∃ (t1 evs : List Ev),
          (outerLoop E mode fuel eg stream sb input out false).2
              = t1 ++ Ev.read 0 :: Ev.setFlush :: evs
                  ++ [Ev.stepped .XD3_INPUT, Ev.flushed] ∧
          ∀ e ∈ evs, ∃ rv, e = Ev.stepped rv) := by
  intro fuel
  induction fuel with
  | zero =>
      intro eg stream sb input out
      refine ⟨by simp [outerLoop], ?_, ?_⟩
      · intro t1 t2 h
        simp only [outerLoop, Bool.false_eq_true, if_false] at h
        exact absurd h (by cases t1 <;> simp)
      · intro h
        simp only [outerLoop, Bool.false_eq_true, if_false] at h
        exact absurd h (by simp)
  | succ fuel ih =>
      intro eg stream sb input out
      simp only [outerLoop, Bool.false_eq_true, if_false]
      split
      · -- input read failed: failure with an empty trace
        refine ⟨by simp, ?_, ?_⟩
        · intro t1 t2 h
          exact absurd h (by cases t1 <;> simp)
        · intro h
          exact absurd h (by simp)
      · rename_i chunk input1 hread
        cases hb : (chunk.length == 0) with
        | true =>
            have h0 : chunk.length = 0 := by simpa using hb
            simp only [eq_self_iff_true, if_true, h0]
            split
            · -- inner loop exits to the outer cycle; the next cycle flushes
              rename_i eg1 st3 sb1 out1 t hinner
              have hstep : ∀ e ∈ t, ∃ rv, e = Ev.stepped rv := by
                intro e he
                exact (innerLoop_spec E mode fuel _ _ _ _).1 e
                  (by rw [hinner]; exact he)
              have hnoread : ∀ m, Ev.read m ∉ t := by
                intro m hm
                obtain ⟨rv, he⟩ := hstep _ hm
                exact Ev.noConfusion he
              have countSF : t.count Ev.setFlush = 0 :=
                List.count_eq_zero.mpr (by
                  intro hm
                  obtain ⟨rv, he⟩ := hstep _ hm
                  exact Ev.noConfusion he)
              rcases outerLoop_eofTrue E mode fuel eg1 st3 sb1 input1 out1
                with hc | hc <;> rw [hc]
              · -- the final flush failed
                refine ⟨by simp [countSF], ?_, by intro h; exact absurd h (by simp)⟩
                refine noRead_split_zero ?_
                intro m hm
                simp at hm
                exact hnoread m hm
              · -- the final flush succeeded
                obtain ⟨hfl, t0, ht0⟩ :=
                  (innerLoop_spec E mode fuel _ _ _ _).2 _ _ _ _
                    (by rw [hinner])
                have ht : t = t0 ++ [Ev.stepped .XD3_INPUT] := by
                  rw [← ht0, hinner]
                refine ⟨by simp [countSF], ?_, ?_⟩
                · refine noRead_split_zero ?_
                  intro m hm
                  simp at hm
                  exact hnoread m hm
                · intro _
                  refine ⟨[], t0, ?_, ?_⟩
                  · rw [ht]
                    simp [List.append_assoc]
                  · intro e he
                    exact hstep e (by rw [ht]; exact List.mem_append_left _ he)
            all_goals (
              rename_i t hinner
              have hstep : ∀ e ∈ t, ∃ rv, e = Ev.stepped rv := by
                intro e he
                exact (innerLoop_spec E mode fuel _ _ _ _).1 e
                  (by rw [hinner]; exact he)
              have hnoread : ∀ m, Ev.read m ∉ t := by
                intro m hm
                obtain ⟨rv, he⟩ := hstep _ hm
                exact Ev.noConfusion he
              have countSF : t.count Ev.setFlush = 0 :=
                List.count_eq_zero.mpr (by
                  intro hm
                  obtain ⟨rv, he⟩ := hstep _ hm
                  exact Ev.noConfusion he)
              refine ⟨by simp [countSF], ?_,
                by intro h; exact absurd h (by simp)⟩
              refine noRead_split_zero ?_
              intro m hm
              simp at hm
              exact hnoread m hm)
        | false =>
            have hn0 : chunk.length ≠ 0 := by simpa using hb
            simp only [Bool.false_eq_true, if_false]
            split
            · -- inner loop exits to the outer cycle; induction on the rest
              rename_i eg1 st3 sb1 out1 t hinner
              have hstep : ∀ e ∈ t, ∃ rv, e = Ev.stepped rv := by
                intro e he
                exact (innerLoop_spec E mode fuel _ _ _ _).1 e
                  (by rw [hinner]; exact he)
              have hnoread : ∀ m, Ev.read m ∉ t := by
                intro m hm
                obtain ⟨rv, he⟩ := hstep _ hm
                exact Ev.noConfusion he
              have countSF : t.count Ev.setFlush = 0 :=
                List.count_eq_zero.mpr (by
                  intro hm
                  obtain ⟨rv, he⟩ := hstep _ hm
                  exact Ev.noConfusion he)
              obtain ⟨c1, c2, c3⟩ := ih eg1 st3 sb1 input1 out1
              refine ⟨?_, ?_, ?_⟩
              · simp only [List.nil_append, List.count_cons,
                  List.count_append, countSF]
                simp only [beq_iff_eq]
                rw [if_neg (by intro hcon; exact Ev.noConfusion hcon)]
                omega
              · simp only [List.nil_append]
                exact noRead_split_cont hn0 hnoread c2
              · intro hok
                obtain ⟨u1, evs, hshape, hevs⟩ := c3 hok
                refine ⟨Ev.read chunk.length :: (t ++ u1), evs, ?_, hevs⟩
                simp only [List.nil_append]
                rw [hshape]
                simp [List.append_assoc]
            all_goals (
              rename_i t hinner
              have hstep : ∀ e ∈ t, ∃ rv, e = Ev.stepped rv := by
                intro e he
                exact (innerLoop_spec E mode fuel _ _ _ _).1 e
                  (by rw [hinner]; exact he)
              have hnoread : ∀ m, Ev.read m ∉ t := by
                intro m hm
                obtain ⟨rv, he⟩ := hstep _ hm
                exact Ev.noConfusion he
              have countSF : t.count Ev.setFlush = 0 :=
                List.count_eq_zero.mpr (by
                  intro hm
                  obtain ⟨rv, he⟩ := hstep _ hm
                  exact Ev.noConfusion he)
              refine ⟨by simp [countSF], ?_,
                by intro h; exact absurd h (by simp)⟩
              simp only [List.nil_append]
              exact noRead_split_simple hn0 hnoread)

/-- Claim C9: in every streaming operation a zero-byte input read makes that
outer cycle the final one. The flush flag is set at most once and never
cleared (the trace holds at most one `setFlush` event, and no arm of the
loop writes `flags` except that assignment); no input read follows the
zero-byte read; and the operation returns success only after the final
cycle, opened by the zero-byte read and the flush-flag assignment, has been
drained through the inner signal loop up to its closing `XD3_INPUT` step
and the final flush of the output sink has succeeded. -/
theorem c9_final_cycle_flush {σ : Type} (E : Engine σ) (mode : Mode)
    (eg : σ) (fuel bc mw : Nat) (input src : Reader) (out : Sink) :
    ((process_async E mode eg fuel bc mw input src out).2.count
        Ev.setFlush ≤ 1) ∧
    (∀ (t1 t2 : List Ev),
      (process_async E mode eg fuel bc mw input src out).2
          = t1 ++ Ev.read 0 :: t2 →
      ∀ m, Ev.read m ∉ t2) ∧
    ((process_async E mode eg fuel bc mw input src out).1 = .ok →
      ∃ (t1 evs : List Ev),
        (process_async E mode eg fuel bc mw input src out).2
            = t1 ++ Ev.read 0 :: Ev.setFlush :: evs
                ++ [Ev.stepped .XD3_INPUT, Ev.flushed] ∧
        ∀ e ∈ evs, ∃ rv, e = Ev.stepped rv) := by
  simp only [process_async]
  split
  · refine ⟨by simp, ?_, by intro h; exact absurd h (by simp)⟩
    intro t1 t2 h
    exact absurd h (by cases t1 <;> simp)
  · split
    · split
      · exact outerLoop_trace_props E mode fuel eg _ _ input out
      · refine ⟨by simp, ?_, by intro h; exact absurd h (by simp)⟩
        intro t1 t2 h
        exact absurd h (by cases t1 <;> simp)
    · refine ⟨by simp, ?_, by intro h; exact absurd h (by simp)⟩
      intro t1 t2 h
      exact absurd h (by cases t1 <;> simp)

/-- Witness for C9 at a concrete run: an empty input stream makes the first
read return zero bytes, and the run flushes and succeeds; the flush flag is
set exactly once and nothing after the zero-byte read is a read. -/
theorem c9_final_cycle_flush_witness :
    ((process_async inputEngine .Encode () 5 1 1 (Reader.ofList [])
        (Reader.ofList []) (Sink.mk [] true [])).2.count Ev.setFlush ≤ 1) ∧
    Ev.read 7 ∉ [Ev.setFlush, Ev.stepped .XD3_INPUT, Ev.flushed] := by
  constructor
  · exact (c9_final_cycle_flush inputEngine .Encode () 5 1 1 (Reader.ofList [])
      (Reader.ofList []) (Sink.mk [] true [])).1
  · exact (c9_final_cycle_flush inputEngine .Encode () 5 1 1 (Reader.ofList [])
      (Reader.ofList []) (Sink.mk [] true [])).2.1 []
      [Ev.setFlush, Ev.stepped .XD3_INPUT, Ev.flushed] (by decide) 7
